import Mathlib

/-!
Verification of the networked object replication core of the rbfx engine
(`StaticNetworkObject`, `BehaviorNetworkObject`, `NetworkBehavior`,
`ReplicatedNetworkTransform`, and the `NetworkValue` trace buffer).

The repository sources in scope are the header declarations of
`ReplicatedNetworkObject.h` (StaticNetworkObject, NetworkBehavior,
BehaviorNetworkObject, ReplicatedNetworkTransform).  Constants, default
member initializers and method signatures are embedded directly from those
headers.  Method bodies and the `NetworkValue` template are not part of the
sources in scope; those operations are modelled from the specification, as
marked in the individual doc comments.
-/

namespace Urho3D

/-- NetworkId: opaque identifier of a replicated object.  Modelled as `Nat`. -/
abbrev NetworkId : Type := Nat

/-- Modelled from the spec: `InvalidNetworkId` sentinel value for `NetworkId`
(the definition of the sentinel is in `NetworkObject.h`, not in scope; the
spec only requires a distinguished sentinel).  Modelled as `2^32 - 1`. -/
def InvalidNetworkId : NetworkId := 4294967295

/-- Maximal number of behaviors of a `BehaviorNetworkObject`.
From the header: `const unsigned MaxNumBehaviors = 29;`
("Current implementation of VLE supports only 29 bits"). -/
def MaxNumBehaviors : Nat := 29

/-- Number of redundant unreliable upload attempts of
`ReplicatedNetworkTransform`.  From the header:
`static const unsigned NumUploadAttempts = 8;`. -/
def NumUploadAttempts : Nat := 8

/-- Modelled from the spec: variable-length encoding of an unsigned integer
(the VLE serializer lives in `Serializer.cpp`, not in scope).  The spec
fixes only "variable-length bit encoding, ≤ 29 bits"; the standard Urho3D
scheme is three 7-bit groups with continuation flags plus a full final
byte, which carries exactly 7+7+7+8 = 29 bits. -/
def encodeVLE (n : Nat) : List Nat :=
  if n < 128 then [n]
  else if n < 16384 then [n % 128 + 128, n / 128]
  else if n < 2097152 then [n % 128 + 128, n / 128 % 128 + 128, n / 16384]
  else [n % 128 + 128, n / 128 % 128 + 128, n / 16384 % 128 + 128, n / 2097152]

/-- Modelled from the spec: VLE decoding; consumes the encoded group from the
front of the byte stream, failing distinguishably on truncated input. -/
def decodeVLE : List Nat → Option (Nat × List Nat)
  | [] => none
  | b0 :: r0 =>
    if b0 < 128 then some (b0, r0)
    else match r0 with
      | [] => none
      | b1 :: r1 =>
        if b1 < 128 then some (b0 - 128 + 128 * b1, r1)
        else match r1 with
          | [] => none
          | b2 :: r2 =>
            if b2 < 128 then some (b0 - 128 + 128 * (b1 - 128 + 128 * b2), r2)
            else match r2 with
              | [] => none
              | b3 :: r3 =>
                some (b0 - 128 + 128 * (b1 - 128 + 128 * (b2 - 128 + 128 * b3)), r3)

theorem decodeVLE_encodeVLE (n : Nat) (h : n < 536870912) (rest : List Nat) :
    decodeVLE (encodeVLE n ++ rest) = some (n, rest) := by
  unfold encodeVLE decodeVLE
  by_cases h1 : n < 128
  · simp [h1]
  · by_cases h2 : n < 16384
    · have hb : ¬ (n % 128 + 128 < 128) := by omega
      have hq : n / 128 < 128 := by omega
      simp only [h1, if_false, h2, if_true, List.cons_append, List.nil_append]
      simp only [hb, if_false, hq, if_true, Option.some.injEq, Prod.mk.injEq]
      exact ⟨by omega, trivial⟩
    · by_cases h3 : n < 2097152
      · have hb : ¬ (n % 128 + 128 < 128) := by omega
        have hb1 : ¬ (n / 128 % 128 + 128 < 128) := by omega
        have hq : n / 16384 < 128 := by omega
        simp only [h1, if_false, h2, if_false, h3, if_true, List.cons_append,
          List.nil_append]
        simp only [hb, if_false, hb1, if_false, hq, if_true, Option.some.injEq,
          Prod.mk.injEq]
        refine ⟨?_, trivial⟩
        have e1 : n % 16384 = n % 128 + 128 * (n / 128 % 128) := by omega
        omega
      · have hb : ¬ (n % 128 + 128 < 128) := by omega
        have hb1 : ¬ (n / 128 % 128 + 128 < 128) := by omega
        have hb2 : ¬ (n / 16384 % 128 + 128 < 128) := by omega
        simp only [h1, if_false, h2, if_false, h3, if_false, List.cons_append,
          List.nil_append]
        simp only [hb, if_false, hb1, if_false, hb2, if_false, Option.some.injEq,
          Prod.mk.injEq]
        refine ⟨?_, trivial⟩
        have e1 : n % 16384 = n % 128 + 128 * (n / 128 % 128) := by omega
        have e2 : n % 2097152 = n % 16384 + 16384 * (n / 16384 % 128) := by omega
        have e3 : n = n % 2097152 + 2097152 * (n / 2097152) := by omega
        omega

/-- Modelled from the spec: the set of network callback capabilities
`{UpdateTransformOnServer, UnreliableDelta, ReliableDelta, InterpolateState,
UnreliableFeedback}` (the `NetworkCallback` flag enum lives in
`NetworkObject.h`, not in scope).  Modelled as a record of booleans, one per
capability flag. -/
structure NetworkCallbackFlags where
  updateTransformOnServer : Bool
  reliableDelta : Bool
  unreliableDelta : Bool
  unreliableFeedback : Bool
  interpolateState : Bool
deriving DecidableEq, Repr

/-- Capability mask of `ReplicatedNetworkTransform`.  From the header:
`static constexpr NetworkCallbackFlags CallbackMask =
  NetworkCallback::UpdateTransformOnServer | NetworkCallback::UnreliableDelta
  | NetworkCallback::InterpolateState;`. -/
def ReplicatedNetworkTransformCallbackMask : NetworkCallbackFlags :=
  { updateTransformOnServer := true
    reliableDelta := false
    unreliableDelta := true
    unreliableFeedback := false
    interpolateState := true }

/-- A behavior connected to a `BehaviorNetworkObject`, as in the header:
`struct ConnectedNetworkBehavior { unsigned bit_; WeakPtr<NetworkBehavior>
component_; NetworkCallbackFlags callbackMask_; }`.  The weak component
pointer is modelled as the per-frame payload the behavior serializes plus a
flag telling whether it currently has data to send. -/
structure ConnectedNetworkBehavior where
  bit_ : Nat
  callbackMask_ : NetworkCallbackFlags
  payload_ : List Nat
  hasData_ : Bool
deriving DecidableEq, Repr

/-- Modelled from the spec: per-tick mask collection of
`BehaviorNetworkObject` — "the aggregator asks every behavior whose mask
includes the relevant capability whether it has data; behaviors that answer
yes set their bit in the corresponding mask". -/
def collectMask (cap : NetworkCallbackFlags → Bool)
    (behaviors : List ConnectedNetworkBehavior) : Nat :=
  behaviors.foldr
    (fun b m => if cap b.callbackMask_ && b.hasData_ then m ||| 2 ^ b.bit_ else m) 0

theorem testBit_collectMask (cap : NetworkCallbackFlags → Bool)
    (behaviors : List ConnectedNetworkBehavior) (i : Nat) :
    (collectMask cap behaviors).testBit i =
      behaviors.any
        (fun b => decide (b.bit_ = i) && (cap b.callbackMask_ && b.hasData_)) := by
  induction behaviors with
  | nil => simp [collectMask]
  | cons b bs ih =>
    have hfold : collectMask cap (b :: bs) =
        if cap b.callbackMask_ && b.hasData_ then collectMask cap bs ||| 2 ^ b.bit_
        else collectMask cap bs := rfl
    rw [hfold, List.any_cons]
    by_cases hc : (cap b.callbackMask_ && b.hasData_) = true
    · rw [if_pos hc, Nat.testBit_lor, ih, Nat.testBit_two_pow, hc]
      cases hd : decide (b.bit_ = i) <;> simp
    · rw [if_neg hc, ih]
      have hc' : (cap b.callbackMask_ && b.hasData_) = false := by
        simpa using hc
      rw [hc']
      simp

/-- State of `ReplicatedNetworkTransform` relevant to the unreliable upload
counter.  From the header: `unsigned pendingUploadAttempts_{};` — value-
initialized, hence zero on construction. -/
structure ReplicatedNetworkTransformState where
  trackOnly_ : Bool
  pendingUploadAttempts_ : Nat
deriving DecidableEq, Repr

/-- Freshly constructed `ReplicatedNetworkTransform`: all members carry
their default member initializers from the header (`bool trackOnly_{};`,
`unsigned pendingUploadAttempts_{};`). -/
def ReplicatedNetworkTransformInit : ReplicatedNetworkTransformState :=
  { trackOnly_ := false, pendingUploadAttempts_ := 0 }

/-- Modelled from the spec: a transform change observed by
`UpdateTransformOnServer` "resets the counter to `NumUploadAttempts` (8)". -/
def onTransformChange (s : ReplicatedNetworkTransformState) :
    ReplicatedNetworkTransformState :=
  { s with pendingUploadAttempts_ := NumUploadAttempts }

/-- Modelled from the spec: `PrepareUnreliableDelta` "returns true while
`pendingUploadAttempts_ > 0`, decrementing on each send".  Returns the
boolean answer together with the successor state. -/
def prepareUnreliableDelta (s : ReplicatedNetworkTransformState) :
    Bool × ReplicatedNetworkTransformState :=
  if s.pendingUploadAttempts_ > 0 then
    (true, { s with pendingUploadAttempts_ := s.pendingUploadAttempts_ - 1 })
  else
    (false, s)

/-- Results of `n` successive `PrepareUnreliableDelta` calls starting from
state `s`, absent further transform changes. -/
def prepareUnreliableDeltaSeq (s : ReplicatedNetworkTransformState) :
    Nat → List Bool
  | 0 => []
  | n + 1 =>
    let r := prepareUnreliableDelta s
    r.1 :: prepareUnreliableDeltaSeq r.2 n

theorem prepareUnreliableDeltaSeq_eval (s : ReplicatedNetworkTransformState)
    (n : Nat) :
    prepareUnreliableDeltaSeq s n =
      List.replicate (min n s.pendingUploadAttempts_) true ++
        List.replicate (n - s.pendingUploadAttempts_) false := by
  induction n generalizing s with
  | zero => simp [prepareUnreliableDeltaSeq]
  | succ n ih =>
    simp only [prepareUnreliableDeltaSeq]
    by_cases hp : s.pendingUploadAttempts_ > 0
    · simp only [prepareUnreliableDelta, hp, if_true]
      rw [ih]
      have h1 : min (n + 1) s.pendingUploadAttempts_ =
          min n (s.pendingUploadAttempts_ - 1) + 1 := by omega
      have h2 : n + 1 - s.pendingUploadAttempts_ =
          n - (s.pendingUploadAttempts_ - 1) := by omega
      rw [h1, h2]
      simp [List.replicate_succ]
    · have hz : s.pendingUploadAttempts_ = 0 := by omega
      simp only [prepareUnreliableDelta, hp, if_false]
      rw [ih]
      simp [hz, List.replicate_succ]

/-- State of `StaticNetworkObject` relevant to reliable delta preparation.
From the header: `SharedPtr<XMLFile> clientPrefab_;` (modelled as a resource
reference, a `Nat`) and `NetworkId latestSentParentObject_{InvalidNetworkId};`. -/
structure StaticNetworkObjectState where
  clientPrefab_ : Nat
  latestSentParentObject_ : NetworkId
deriving DecidableEq, Repr

/-- Freshly constructed `StaticNetworkObject`: `latestSentParentObject_`
carries its default member initializer `InvalidNetworkId` from the header. -/
def StaticNetworkObjectInit (prefab : Nat) : StaticNetworkObjectState :=
  { clientPrefab_ := prefab, latestSentParentObject_ := InvalidNetworkId }

/-- Modelled from the spec: `StaticNetworkObject::PrepareReliableDelta`
"returns true only when the parent object id changed relative to
`latestSentParentObject_`" (the method body in
`ReplicatedNetworkObject.cpp` is not in scope).  A positive answer is
followed by `WriteReliableDelta`, which refreshes the cache with the sent
parent id; the pair below models one prepare/write cycle for the current
parent id, returning the answer and the successor state. -/
def prepareReliableDelta (s : StaticNetworkObjectState)
    (currentParent : NetworkId) : Bool × StaticNetworkObjectState :=
  if currentParent = s.latestSentParentObject_ then
    (false, s)
  else
    (true, { s with latestSentParentObject_ := currentParent })

/-- Modelled from the spec: `BehaviorNetworkObject::InitializeBehaviors`
"assigns each attached behavior a unique bit index (`0 ≤ bit_ < 29`) in
attachment order; exceeding 29 behaviors is a fatal configuration error"
(the method body is not in scope; `MaxNumBehaviors = 29` is from the
header).  Takes the attachment-ordered list of behaviors (their callback
masks) and either fails or produces the connected behavior list. -/
def assignBits (startBit : Nat) :
    List NetworkCallbackFlags → List ConnectedNetworkBehavior
  | [] => []
  | m :: ms =>
    { bit_ := startBit, callbackMask_ := m, payload_ := [], hasData_ := false } ::
      assignBits (startBit + 1) ms

/-- Modelled from the spec: `BehaviorNetworkObject::InitializeBehaviors`
"assigns each attached behavior a unique bit index (`0 ≤ bit_ < 29`) in
attachment order; exceeding 29 behaviors is a fatal configuration error"
(the method body is not in scope; `MaxNumBehaviors = 29` is from the
header).  Takes the attachment-ordered list of behaviors (their callback
masks) and either fails or produces the connected behavior list. -/
def initializeBehaviors (attached : List NetworkCallbackFlags) :
    Option (List ConnectedNetworkBehavior) :=
  if attached.length > MaxNumBehaviors then none
  else some (assignBits 0 attached)

theorem assignBits_map_bit (startBit : Nat) (ms : List NetworkCallbackFlags) :
    (assignBits startBit ms).map ConnectedNetworkBehavior.bit_ =
      List.range' startBit ms.length := by
  induction ms generalizing startBit with
  | nil => rfl
  | cons m ms ih => simp [assignBits, List.range'_succ, ih]

theorem assignBits_map_mask (startBit : Nat) (ms : List NetworkCallbackFlags) :
    (assignBits startBit ms).map ConnectedNetworkBehavior.callbackMask_ = ms := by
  induction ms generalizing startBit with
  | nil => rfl
  | cons m ms ih => simp [assignBits, ih]

/-- Modelled from the spec: the `NetworkValue<T>` trace buffer
(`NetworkValue.h` is not in scope) — a fixed-capacity ring of samples keyed
by frame number, held here as the frame-ascending list of retained
samples. -/
structure NetworkValue (α : Type) where
  capacity : Nat
  samples : List (Nat × α)
deriving DecidableEq, Repr

/-- A trace buffer with no samples recorded yet. -/
def NetworkValue.emptyTrace (α : Type) (capacity : Nat) : NetworkValue α :=
  { capacity := capacity, samples := [] }

/-- The frames of a trace are strictly ascending. -/
def NetworkValue.SortedTrace {α : Type} (nv : NetworkValue α) : Prop :=
  nv.samples.Pairwise (fun p q => p.1 < q.1)

/-- Last `c` elements of a list (the most recently retained window). -/
def takeLast {α : Type} (c : Nat) (l : List α) : List α :=
  (l.reverse.take c).reverse

/-- Insertion into the frame-ascending sample list. -/
def insertByFrame {α : Type} (p : Nat × α) : List (Nat × α) → List (Nat × α)
  | [] => [p]
  | q :: qs => if p.1 ≤ q.1 then p :: q :: qs else q :: insertByFrame p qs

/-- Modelled from the spec: `Set(frame, value)` "records a sample,
overwriting any existing sample for that exact frame (idempotent per frame)
and evicting the oldest retained sample if the buffer is full
(fixed-capacity ring)". -/
def NetworkValue.set {α : Type} (nv : NetworkValue α) (f : Nat) (v : α) :
    NetworkValue α :=
  { nv with
      samples :=
        takeLast nv.capacity
          (insertByFrame (f, v) (nv.samples.filter (fun q => q.1 ≠ f))) }

/-- Modelled from the spec: `GetRaw(frame)` "returns the exact stored sample
for a frame or absent if evicted or never set". -/
def NetworkValue.getRaw {α : Type} (nv : NetworkValue α) (f : Nat) : Option α :=
  (nv.samples.find? (fun q => q.1 == f)).map Prod.snd

/-- Successive `Set` calls, one per listed (frame, value) pair. -/
def NetworkValue.setMany {α : Type} (nv : NetworkValue α) :
    List (Nat × α) → NetworkValue α
  | [] => nv
  | p :: ps => NetworkValue.setMany (nv.set p.1 p.2) ps

/-- Linear interpolation on rationals. -/
def lerpQ (a b t : ℚ) : ℚ := a + (b - a) * t

/-- Walk of the retained segments: given the sample `(f0, v0)` preceding the
query inspection point and the remaining ascending samples, return the
interpolated value at time `t`, clamping to the newest value past the end. -/
def sampleSegments (f0 : Nat) (v0 : ℚ) : List (Nat × ℚ) → ℚ → ℚ
  | [], _ => v0
  | (f1, v1) :: rest, t =>
    if t ≤ (f1 : ℚ) then lerpQ v0 v1 ((t - (f0 : ℚ)) / ((f1 : ℚ) - (f0 : ℚ)))
    else sampleSegments f1 v1 rest t

/-- Modelled from the spec: `SampleValid(time)` "returns an interpolated
value for any fractional time within the retained window; if `time` falls
before the earliest retained frame, the earliest value is returned (clamp);
if it falls after the newest, linear extrapolation is disallowed — the
newest value is returned (clamp)". -/
def NetworkValue.sampleValid (nv : NetworkValue ℚ) (t : ℚ) : Option ℚ :=
  match nv.samples with
  | [] => none
  | (f0, v0) :: rest =>
    if t ≤ (f0 : ℚ) then some v0 else some (sampleSegments f0 v0 rest t)

theorem sampleSegments_bracket (t : ℚ) (f1 : Nat) (v1 : ℚ) (f2 : Nat) (v2 : ℚ)
    (post : List (Nat × ℚ)) (hlo : (f1 : ℚ) < t) (hhi : t ≤ (f2 : ℚ)) :
    ∀ (pre : List (Nat × ℚ)) (f0 : Nat) (v0 : ℚ),
      (∀ p ∈ pre, (p.1 : ℚ) < t) →
      sampleSegments f0 v0 (pre ++ (f1, v1) :: (f2, v2) :: post) t =
        lerpQ v1 v2 ((t - (f1 : ℚ)) / ((f2 : ℚ) - (f1 : ℚ))) := by
  intro pre
  induction pre with
  | nil =>
    intro f0 v0 _
    simp only [List.nil_append, sampleSegments]
    rw [if_neg (by linarith)]
    rw [if_pos hhi]
  | cons p pre ih =>
    intro f0 v0 hall
    obtain ⟨fp, vp⟩ := p
    simp only [List.cons_append, sampleSegments]
    have hfp : (fp : ℚ) < t := hall (fp, vp) (List.mem_cons_self _ _)
    rw [if_neg (by linarith)]
    exact ih fp vp (fun q hq => hall q (List.mem_cons_of_mem _ hq))

theorem sampleSegments_at_frame (f1 : Nat) (v1 : ℚ) (rest : List (Nat × ℚ)) :
    ∀ (pre : List (Nat × ℚ)) (f0 : Nat) (v0 : ℚ),
      f0 < f1 →
      (∀ p ∈ pre, p.1 < f1) →
      sampleSegments f0 v0 (pre ++ (f1, v1) :: rest) (f1 : ℚ) = v1 := by
  intro pre
  induction pre with
  | nil =>
    intro f0 v0 h0 _
    simp only [List.nil_append, sampleSegments]
    rw [if_pos le_rfl]
    have hne : (f1 : ℚ) - (f0 : ℚ) ≠ 0 := by
      have : (f0 : ℚ) < (f1 : ℚ) := by exact_mod_cast h0
      linarith
    simp [lerpQ, div_self hne]
  | cons p pre ih =>
    intro f0 v0 _ hall
    obtain ⟨fp, vp⟩ := p
    simp only [List.cons_append, sampleSegments]
    have hfp : fp < f1 := hall (fp, vp) (List.mem_cons_self _ _)
    rw [if_neg (by exact_mod_cast not_le.mpr (by exact_mod_cast hfp))]
    exact ih fp vp hfp (fun q hq => hall q (List.mem_cons_of_mem _ hq))

theorem sampleSegments_clamp_newest (t : ℚ) :
    ∀ (l : List (Nat × ℚ)) (f0 : Nat) (v0 : ℚ),
      List.Pairwise (fun p q : Nat × ℚ => p.1 < q.1) ((f0, v0) :: l) →
      (∀ p ∈ l, (p.1 : ℚ) ≤ t) →
      sampleSegments f0 v0 l t = (l.getLastD (f0, v0)).2 := by
  intro l
  induction l with
  | nil => intro f0 v0 _ _; rfl
  | cons p l ih =>
    intro f0 v0 hsort hall
    obtain ⟨f1, v1⟩ := p
    simp only [sampleSegments, List.getLastD_cons]
    have hf1t : (f1 : ℚ) ≤ t := hall (f1, v1) (List.mem_cons_self _ _)
    by_cases hcase : t ≤ (f1 : ℚ)
    · have hteq : t = (f1 : ℚ) := le_antisymm hcase hf1t
      have hlnil : l = [] := by
        cases l with
        | nil => rfl
        | cons q l' =>
          exfalso
          have hq : f1 < q.1 := by
            have := (List.pairwise_cons.mp (List.pairwise_cons.mp hsort).2).1
            exact this q (List.mem_cons_self _ _)
          have hqt : (q.1 : ℚ) ≤ t := hall q (List.mem_cons_of_mem _ (List.mem_cons_self _ _))
          rw [hteq] at hqt
          exact absurd (by exact_mod_cast hqt) (not_le.mpr hq)
      subst hlnil
      rw [if_pos hcase, hteq]
      have h01 : f0 < f1 := by
        have := (List.pairwise_cons.mp hsort).1
        exact this (f1, v1) (List.mem_cons_self _ _)
      have hne : (f1 : ℚ) - (f0 : ℚ) ≠ 0 := by
        have : (f0 : ℚ) < (f1 : ℚ) := by exact_mod_cast h01
        linarith
      simp [lerpQ, div_self hne, List.getLastD]
    · rw [if_neg hcase]
      rw [ih f1 v1 (List.pairwise_cons.mp hsort).2
        (fun q hq => hall q (List.mem_cons_of_mem _ hq))]

theorem takeLast_zero {α : Type} (l : List α) : takeLast 0 l = [] := by
  simp [takeLast]

theorem takeLast_nil {α : Type} (c : Nat) : takeLast c ([] : List α) = [] := by
  simp [takeLast]

theorem takeLast_sublist {α : Type} (c : Nat) (l : List α) :
    (takeLast c l).Sublist l := by
  have h1 : (l.reverse.take c).Sublist l.reverse := List.take_sublist c l.reverse
  have h2 := h1.reverse
  simpa [takeLast] using h2

theorem takeLast_append_singleton {α : Type} (m : Nat) (l : List α) (x : α) :
    takeLast (m + 1) (l ++ [x]) = takeLast m l ++ [x] := by
  simp [takeLast, List.take_succ_cons]

theorem takeLast_takeLast {α : Type} (m c : Nat) (h : m ≤ c) (l : List α) :
    takeLast m (takeLast c l) = takeLast m l := by
  simp only [takeLast, List.reverse_reverse, List.take_take]
  rw [Nat.min_eq_left h]

theorem takeLast_step {α : Type} (c : Nat) (l : List α) (x : α) :
    takeLast c (takeLast c l ++ [x]) = takeLast c (l ++ [x]) := by
  cases c with
  | zero => rw [takeLast_zero, takeLast_zero]
  | succ m =>
    rw [takeLast_append_singleton, takeLast_append_singleton,
      takeLast_takeLast m (m + 1) (Nat.le_succ m) l]

theorem filter_ne_frame_of_lt {α : Type} (f : Nat) (l : List (Nat × α))
    (h : ∀ p ∈ l, p.1 < f) : l.filter (fun q => q.1 ≠ f) = l := by
  apply List.filter_eq_self.mpr
  intro p hp
  simpa using Nat.ne_of_lt (h p hp)

theorem insertByFrame_append_of_lt {α : Type} (f : Nat) (v : α)
    (l : List (Nat × α)) (h : ∀ p ∈ l, p.1 < f) :
    insertByFrame (f, v) l = l ++ [(f, v)] := by
  induction l with
  | nil => rfl
  | cons q l ih =>
    have hq : q.1 < f := h q (List.mem_cons_self _ _)
    simp only [insertByFrame]
    rw [if_neg (by simpa using Nat.not_le.mpr hq)]
    rw [ih (fun p hp => h p (List.mem_cons_of_mem _ hp))]
    rfl

theorem setMany_samples {α : Type} (c : Nat) :
    ∀ (ps qs : List (Nat × α)),
      (qs ++ ps).Pairwise (fun p q => p.1 < q.1) →
      (NetworkValue.setMany ⟨c, takeLast c qs⟩ ps).samples =
        takeLast c (qs ++ ps) := by
  intro ps
  induction ps with
  | nil => intro qs _; simp [NetworkValue.setMany]
  | cons p ps ih =>
    intro qs hsort
    obtain ⟨f, v⟩ := p
    have hlt : ∀ q ∈ takeLast c qs, q.1 < f := by
      intro q hq
      have hq' : q ∈ qs := (takeLast_sublist c qs).mem hq
      have := (List.pairwise_append.mp hsort).2.2 q hq' (f, v)
        (List.mem_cons_self _ _)
      exact this
    simp only [NetworkValue.setMany, NetworkValue.set]
    rw [filter_ne_frame_of_lt f _ hlt, insertByFrame_append_of_lt f v _ hlt,
      takeLast_step]
    have hsort' : ((qs ++ [(f, v)]) ++ ps).Pairwise
        (fun p q : Nat × α => p.1 < q.1) := by
      rw [List.append_assoc]
      exact hsort
    have := ih (qs ++ [(f, v)]) hsort'
    rw [List.append_assoc] at this
    exact this

theorem find?_frame_of_mem {α : Type} :
    ∀ (l : List (Nat × α)) (f : Nat) (v : α),
      l.Pairwise (fun p q => p.1 < q.1) → (f, v) ∈ l →
      l.find? (fun q => q.1 == f) = some (f, v) := by
  intro l
  induction l with
  | nil => intro f v _ hmem; cases hmem
  | cons q l ih =>
    intro f v hsort hmem
    rcases List.mem_cons.mp hmem with heq | hmem'
    · subst heq
      simp [List.find?]
    · have hqf : q.1 < f := by
        have := (List.pairwise_cons.mp hsort).1 (f, v) hmem'
        exact this
      have hne : (q.1 == f) = false := by
        simp [Nat.ne_of_lt hqf]
      rw [List.find?_cons, hne]
      exact ih f v (List.pairwise_cons.mp hsort).2 hmem'

/-- Behaviors whose bit is set in the per-frame mask, in list order; the
behaviors list is kept in attachment order, so with bits assigned in
attachment order this is ascending bit order. -/
def dispatchedBehaviors (behaviors : List ConnectedNetworkBehavior)
    (mask : Nat) : List ConnectedNetworkBehavior :=
  behaviors.filter (fun b => mask.testBit b.bit_)

/-- Modelled from the spec: `WriteReliableDelta` / `WriteUnreliableDelta` /
`WriteUnreliableFeedback` of `BehaviorNetworkObject` "first write the
bitmask, then, for each set bit in ascending order, delegate serialization
to that behavior" (the method bodies are not in scope). -/
def writeDelta (behaviors : List ConnectedNetworkBehavior) (mask : Nat) :
    List Nat :=
  encodeVLE mask ++ ((dispatchedBehaviors behaviors mask).map
    ConnectedNetworkBehavior.payload_).flatten

/-- Failure results of the modelled read path. -/
inductive ReadError
  | truncated
  | unknownBit
deriving DecidableEq, Repr

/-- Whether every set bit of a received mask has a matching behavior and the
mask fits into the 29 bits the VLE encoding can carry. -/
def maskCovered (behaviors : List ConnectedNetworkBehavior) (mask : Nat) :
    Bool :=
  decide (mask < 2 ^ MaxNumBehaviors) &&
    (List.range MaxNumBehaviors).all
      (fun i => !(mask.testBit i) || behaviors.any (fun b => b.bit_ == i))

/-- Reads each dispatched behavior's payload off the stream front, in list
order; each behavior's deserializer consumes exactly as many bytes as its
serializer writes.  Fails distinguishably on a truncated stream. -/
def readPayloads (bs : List ConnectedNetworkBehavior) (stream : List Nat) :
    Except ReadError (List (Nat × List Nat) × List Nat) :=
  match bs with
  | [] => Except.ok ([], stream)
  | b :: rest =>
    if stream.length < b.payload_.length then Except.error ReadError.truncated
    else
      match readPayloads rest (stream.drop b.payload_.length) with
      | Except.ok (acc, s) =>
        Except.ok ((b.bit_, stream.take b.payload_.length) :: acc, s)
      | Except.error e => Except.error e

/-- Modelled from the spec: the peer's `ReadReliableDelta` /
`ReadUnreliableDelta` / `ReadUnreliableFeedback` — "the peer decodes the
bitmask and dispatches to the matching behavior by bit index; a set bit
whose behavior is absent (version mismatch) is a protocol error".  Returns
the list of (bit, consumed payload) dispatches in the order performed. -/
def readDelta (behaviors : List ConnectedNetworkBehavior) (wire : List Nat) :
    Except ReadError (List (Nat × List Nat)) :=
  match decodeVLE wire with
  | none => Except.error ReadError.truncated
  | some (mask, rest) =>
    if maskCovered behaviors mask then
      match readPayloads (dispatchedBehaviors behaviors mask) rest with
      | Except.ok (acc, _) => Except.ok acc
      | Except.error e => Except.error e
    else Except.error ReadError.unknownBit

theorem readPayloads_append (bs : List ConnectedNetworkBehavior) :
    ∀ (rest : List Nat),
      readPayloads bs
          ((bs.map ConnectedNetworkBehavior.payload_).flatten ++ rest) =
        Except.ok (bs.map (fun b => (b.bit_, b.payload_)), rest) := by
  induction bs with
  | nil => intro rest; rfl
  | cons b bs ih =>
    intro rest
    simp only [List.map_cons, List.flatten_cons, List.append_assoc, readPayloads]
    rw [if_neg]
    · rw [List.take_left, List.drop_left, ih rest]
    · simp

/-- Observable replicated state of a `BehaviorNetworkObject`: parent id,
client prefab reference, and the connected behavior set. -/
structure BehaviorNetworkObjectState where
  parentId : NetworkId
  clientPrefab : Nat
  behaviors : List ConnectedNetworkBehavior
deriving DecidableEq, Repr

/-- Modelled from the spec: `WriteSnapshot` "serializes the prefab reference
and current parent id", fields in the documented order "parent id, then
prefab ref" (the method bodies of `StaticNetworkObject::WriteSnapshot` and
`BehaviorNetworkObject::WriteSnapshot` are not in scope).  The behavior set
itself travels via the prefab: both sides instantiate the same behaviors
from the referenced prefab. -/
def writeSnapshot (s : BehaviorNetworkObjectState) : List Nat :=
  [s.parentId, s.clientPrefab]

/-- Modelled from the spec: `InitializeFromSnapshot` "must fully reconstruct
object state from one packet" — parse parent id and prefab reference,
instantiate the behaviors the prefab prescribes, and assign bits via
`InitializeBehaviors`.  `resolvePrefab` is the external resource-loading
collaborator mapping a prefab reference to the attached behavior masks.
Malformed input yields `none`. -/
def initializeFromSnapshot (resolvePrefab : Nat → List NetworkCallbackFlags)
    (wire : List Nat) : Option BehaviorNetworkObjectState :=
  match wire with
  | [pid, prefab] =>
    match initializeBehaviors (resolvePrefab prefab) with
    | some bs =>
      some { parentId := pid, clientPrefab := prefab, behaviors := bs }
    | none => none
  | _ => none

/-- Return types in the serialization interface of the header. -/
inductive MethodReturnType
  | voidReturn
  | boolReturn
deriving DecidableEq, Repr

/-- The read-side operations declared in the header. -/
inductive ReadMethod
  | readReliableDelta
  | readUnreliableDelta
  | readUnreliableFeedback
  | initializeFromSnapshotMethod
deriving DecidableEq, Repr

/-- Declared return types, from the header:
`void InitializeFromSnapshot(unsigned frame, Deserializer& src) override;`,
`void ReadReliableDelta(unsigned frame, Deserializer& src) override;`,
`void ReadUnreliableDelta(unsigned frame, Deserializer& src) override;`,
`void ReadUnreliableFeedback(unsigned feedbackFrame, Deserializer& src)
override;`. -/
def readMethodReturnType : ReadMethod → MethodReturnType
  | ReadMethod.readReliableDelta => MethodReturnType.voidReturn
  | ReadMethod.readUnreliableDelta => MethodReturnType.voidReturn
  | ReadMethod.readUnreliableFeedback => MethodReturnType.voidReturn
  | ReadMethod.initializeFromSnapshotMethod => MethodReturnType.voidReturn

/-- A read operation can hand a distinguishable failure result back to its
caller through its return value only if its declared return type carries a
value at all. -/
def returnsFailureResult (m : ReadMethod) : Bool :=
  match readMethodReturnType m with
  | MethodReturnType.voidReturn => false
  | MethodReturnType.boolReturn => true

theorem sampleValid_cons (c : Nat) (f0 : Nat) (v0 : ℚ) (rest : List (Nat × ℚ))
    (t : ℚ) :
    NetworkValue.sampleValid ⟨c, (f0, v0) :: rest⟩ t =
      if t ≤ (f0 : ℚ) then some v0 else some (sampleSegments f0 v0 rest t) := rfl

/-- C1: for a sorted `NetworkValue` trace with consecutive retained samples
`v1` at frame `f1` and `v2` at frame `f2` (`f1 < f2`), `SampleValid(t)` for
`f1 ≤ t ≤ f2` returns the point of the interpolation curve between `v1` and
`v2`; for `t` at or before the earliest retained frame it returns the
earliest retained value (clamp); for `t` at or after the newest retained
frame it returns the newest retained value (clamp, no extrapolation). -/
theorem C1_sampleValid_interpolates_and_clamps :
    (∀ (nv : NetworkValue ℚ) (pre post : List (Nat × ℚ)) (f1 f2 : Nat)
        (v1 v2 : ℚ) (t : ℚ),
      nv.SortedTrace →
      nv.samples = pre ++ (f1, v1) :: (f2, v2) :: post →
      (f1 : ℚ) ≤ t → t ≤ (f2 : ℚ) →
      nv.sampleValid t =
        some (lerpQ v1 v2 ((t - (f1 : ℚ)) / ((f2 : ℚ) - (f1 : ℚ))))) ∧
    (∀ (nv : NetworkValue ℚ) (f0 : Nat) (v0 : ℚ) (rest : List (Nat × ℚ))
        (t : ℚ),
      nv.samples = (f0, v0) :: rest → t ≤ (f0 : ℚ) →
      nv.sampleValid t = some v0) ∧
    (∀ (nv : NetworkValue ℚ) (p0 : Nat × ℚ) (rest : List (Nat × ℚ)) (t : ℚ),
      nv.SortedTrace →
      nv.samples = p0 :: rest →
      (∀ p ∈ nv.samples, (p.1 : ℚ) ≤ t) →
      nv.sampleValid t = some (rest.getLastD p0).2) := by
  refine ⟨?_, ?_, ?_⟩
  · intro nv pre post f1 f2 v1 v2 t hsort hsamples hlo hhi
    obtain ⟨c, samples⟩ := nv
    rw [NetworkValue.SortedTrace] at hsort
    simp only at hsort hsamples
    subst hsamples
    have hpre_f1 : ∀ p ∈ pre, p.1 < f1 := by
      intro p hp
      exact (List.pairwise_append.mp hsort).2.2 p hp (f1, v1)
        (List.mem_cons_self _ _)
    have hf12 : f1 < f2 := by
      have h2 := (List.pairwise_append.mp hsort).2.1
      exact (List.pairwise_cons.mp h2).1 (f2, v2) (List.mem_cons_self _ _)
    have hf12Q : (f1 : ℚ) < (f2 : ℚ) := by exact_mod_cast hf12
    cases pre with
    | nil =>
      rw [List.nil_append, sampleValid_cons]
      by_cases hcase : t ≤ (f1 : ℚ)
      · have hteq : t = (f1 : ℚ) := le_antisymm hcase hlo
        rw [if_pos hcase, hteq]
        simp [lerpQ]
      · rw [if_neg hcase]
        simp only [sampleSegments]
        rw [if_pos hhi]
    | cons q pre' =>
      obtain ⟨fq, vq⟩ := q
      rw [List.cons_append, sampleValid_cons]
      have hq_f1 : fq < f1 := hpre_f1 (fq, vq) (List.mem_cons_self _ _)
      have hq_t : (fq : ℚ) < t := by
        have : (fq : ℚ) < (f1 : ℚ) := by exact_mod_cast hq_f1
        linarith
      rw [if_neg (not_le.mpr hq_t)]
      by_cases hcase : t ≤ (f1 : ℚ)
      · have hteq : t = (f1 : ℚ) := le_antisymm hcase hlo
        rw [hteq]
        rw [sampleSegments_at_frame f1 v1 ((f2, v2) :: post) pre' fq vq hq_f1
          (fun p hp => hpre_f1 p (List.mem_cons_of_mem _ hp))]
        simp [lerpQ]
      · have hf1t : (f1 : ℚ) < t := not_le.mp hcase
        rw [sampleSegments_bracket t f1 v1 f2 v2 post hf1t hhi pre' fq vq
          (fun p hp => by
            have : (p.1 : ℚ) < (f1 : ℚ) := by
              exact_mod_cast hpre_f1 p (List.mem_cons_of_mem _ hp)
            linarith)]
  · intro nv f0 v0 rest t hsamples ht
    obtain ⟨c, samples⟩ := nv
    simp only at hsamples
    subst hsamples
    rw [sampleValid_cons, if_pos ht]
  · intro nv p0 rest t hsort hsamples hall
    obtain ⟨c, samples⟩ := nv
    rw [NetworkValue.SortedTrace] at hsort
    simp only at hsort hsamples hall
    subst hsamples
    obtain ⟨f0, v0⟩ := p0
    rw [sampleValid_cons]
    have hf0t : (f0 : ℚ) ≤ t := hall (f0, v0) (List.mem_cons_self _ _)
    by_cases hcase : t ≤ (f0 : ℚ)
    · have hteq : t = (f0 : ℚ) := le_antisymm hcase hf0t
      have hrest : rest = [] := by
        cases rest with
        | nil => rfl
        | cons q rest' =>
          exfalso
          have hq : f0 < q.1 :=
            (List.pairwise_cons.mp hsort).1 q (List.mem_cons_self _ _)
          have hqt : (q.1 : ℚ) ≤ t :=
            hall q (List.mem_cons_of_mem _ (List.mem_cons_self _ _))
          rw [hteq] at hqt
          exact absurd (by exact_mod_cast hqt) (not_le.mpr hq)
      subst hrest
      rw [if_pos hcase]
      rfl
    · rw [if_neg hcase]
      rw [sampleSegments_clamp_newest t rest f0 v0 hsort
        (fun p hp => hall p (List.mem_cons_of_mem _ hp))]

/-- Witness for C1 on the concrete trace `[(1, 10), (3, 20)]` of capacity 8:
interpolation at `t = 2` gives 15, clamping at `t = 0` gives 10 and at
`t = 7` gives 20. -/
theorem C1_witness :
    NetworkValue.sampleValid ⟨8, [(1, 10), (3, 20)]⟩ 2 = some 15 ∧
    NetworkValue.sampleValid ⟨8, [(1, 10), (3, 20)]⟩ 0 = some 10 ∧
    NetworkValue.sampleValid ⟨8, [(1, 10), (3, 20)]⟩ 7 = some 20 := by
  have h := C1_sampleValid_interpolates_and_clamps
  refine ⟨?_, ?_, ?_⟩
  · have h1 := h.1 ⟨8, [(1, 10), (3, 20)]⟩ [] [] 1 3 10 20 2
      (by rw [NetworkValue.SortedTrace]; norm_num) rfl (by norm_num) (by norm_num)
    rw [h1]
    norm_num [lerpQ]
  · exact h.2.1 ⟨8, [(1, 10), (3, 20)]⟩ 1 10 [(3, 20)] 0 rfl (by norm_num)
  · have h3 := h.2.2 ⟨8, [(1, 10), (3, 20)]⟩ (1, 10) [(3, 20)] 7
      (by rw [NetworkValue.SortedTrace]; norm_num) rfl
      (by
        intro p hp
        simp only [List.mem_cons, List.not_mem_nil, or_false] at hp
        rcases hp with h | h <;> rw [h] <;> norm_num)
    rw [h3]
    rfl

/-- C2: `Write*Delta`/`Write*Feedback` first write the per-frame bitmask and
then, for each set bit in ascending bit order, delegate serialization to the
behavior assigned that bit; the peer's matching `Read*` call decodes the
bitmask and dispatches to behaviors in the identical ascending-bit order,
each behavior consuming exactly its own payload. -/
theorem C2_delta_dispatch_order (behaviors : List ConnectedNetworkBehavior)
    (mask : Nat) (hcov : maskCovered behaviors mask = true) :
    readDelta behaviors (writeDelta behaviors mask) =
      Except.ok ((dispatchedBehaviors behaviors mask).map
        (fun b => (b.bit_, b.payload_))) ∧
    (∀ b ∈ behaviors,
      (b ∈ dispatchedBehaviors behaviors mask ↔ mask.testBit b.bit_ = true)) ∧
    ((behaviors.map ConnectedNetworkBehavior.bit_).Pairwise (· < ·) →
      ((dispatchedBehaviors behaviors mask).map
        ConnectedNetworkBehavior.bit_).Pairwise (· < ·)) := by
  have hmask : mask < 536870912 := by
    have h1 := (Bool.and_eq_true _ _).mp hcov
    have := of_decide_eq_true h1.1
    simpa [MaxNumBehaviors] using this
  refine ⟨?_, ?_, ?_⟩
  · have hrp := readPayloads_append (dispatchedBehaviors behaviors mask) []
    rw [List.append_nil] at hrp
    simp only [readDelta, writeDelta, decodeVLE_encodeVLE mask hmask, hcov,
      if_true, hrp]
  · intro b hb
    constructor
    · intro hmem
      exact (List.mem_filter.mp hmem).2
    · intro hbit
      exact List.mem_filter.mpr ⟨hb, hbit⟩
  · intro hasc
    exact hasc.sublist ((List.filter_sublist behaviors).map
      ConnectedNetworkBehavior.bit_)

/-- Witness for C2: behaviors at bits {0, 1, 2} with payloads [10], [20],
[30]; a delta with mask 0b101 dispatches to behaviors 0 and 2 only, in that
order, and the reader reproduces exactly that dispatch from the wire. -/
theorem C2_witness :
    readDelta
        [{ bit_ := 0, callbackMask_ := ReplicatedNetworkTransformCallbackMask,
           payload_ := [10], hasData_ := true },
         { bit_ := 1, callbackMask_ := ReplicatedNetworkTransformCallbackMask,
           payload_ := [20], hasData_ := true },
         { bit_ := 2, callbackMask_ := ReplicatedNetworkTransformCallbackMask,
           payload_ := [30], hasData_ := true }]
        (writeDelta
          [{ bit_ := 0, callbackMask_ := ReplicatedNetworkTransformCallbackMask,
             payload_ := [10], hasData_ := true },
           { bit_ := 1, callbackMask_ := ReplicatedNetworkTransformCallbackMask,
             payload_ := [20], hasData_ := true },
           { bit_ := 2, callbackMask_ := ReplicatedNetworkTransformCallbackMask,
             payload_ := [30], hasData_ := true }] 5) =
      Except.ok [(0, [10]), (2, [30])] := by
  have h := C2_delta_dispatch_order
    [{ bit_ := 0, callbackMask_ := ReplicatedNetworkTransformCallbackMask,
       payload_ := [10], hasData_ := true },
     { bit_ := 1, callbackMask_ := ReplicatedNetworkTransformCallbackMask,
       payload_ := [20], hasData_ := true },
     { bit_ := 2, callbackMask_ := ReplicatedNetworkTransformCallbackMask,
       payload_ := [30], hasData_ := true }] 5 (by decide)
  exact h.1

/-- C3: `InitializeBehaviors` assigns each attached behavior a unique bit
index `0 ≤ bit_ < 29` in attachment order; any configuration with at most
29 behaviors initializes successfully, and exceeding 29 fails
deterministically. -/
theorem C3_initializeBehaviors_bit_assignment
    (attached : List NetworkCallbackFlags) :
    (attached.length ≤ MaxNumBehaviors →
      initializeBehaviors attached = some (assignBits 0 attached) ∧
      (assignBits 0 attached).map ConnectedNetworkBehavior.bit_ =
        List.range attached.length ∧
      (∀ b ∈ assignBits 0 attached, b.bit_ < MaxNumBehaviors) ∧
      ((assignBits 0 attached).map ConnectedNetworkBehavior.bit_).Nodup ∧
      (assignBits 0 attached).map ConnectedNetworkBehavior.callbackMask_ =
        attached) ∧
    (attached.length > MaxNumBehaviors → initializeBehaviors attached = none) := by
  have hbits := assignBits_map_bit 0 attached
  rw [← List.range_eq_range'] at hbits
  constructor
  · intro hle
    refine ⟨by rw [initializeBehaviors, if_neg (Nat.not_lt.mpr hle)], hbits,
      ?_, ?_, assignBits_map_mask 0 attached⟩
    · intro b hb
      have hmem : b.bit_ ∈ List.range attached.length := by
        rw [← hbits]
        exact List.mem_map_of_mem _ hb
      exact lt_of_lt_of_le (List.mem_range.mp hmem) hle
    · rw [hbits]
      exact List.nodup_range _
  · intro hgt
    rw [initializeBehaviors, if_pos hgt]

/-- Witness for C3: 29 attached behaviors initialize successfully; a 30th
attached behavior makes initialization fail. -/
theorem C3_witness :
    (initializeBehaviors
      (List.replicate 29 ReplicatedNetworkTransformCallbackMask)).isSome = true ∧
    initializeBehaviors
      (List.replicate 30 ReplicatedNetworkTransformCallbackMask) = none := by
  have h29 := C3_initializeBehaviors_bit_assignment
    (List.replicate 29 ReplicatedNetworkTransformCallbackMask)
  have h30 := C3_initializeBehaviors_bit_assignment
    (List.replicate 30 ReplicatedNetworkTransformCallbackMask)
  constructor
  · rw [(h29.1 (by decide)).1]
    rfl
  · exact h30.2 (by decide)

/-- C4: after a transform change (and absent further changes)
`PrepareUnreliableDelta` returns true for exactly the next
`NumUploadAttempts = 8` calls and false afterwards; each call answers
true exactly when `pendingUploadAttempts_ > 0`, and a fresh change resets
the counter to 8. -/
theorem C4_prepareUnreliableDelta_eight_attempts
    (s : ReplicatedNetworkTransformState) (n : Nat) :
    prepareUnreliableDeltaSeq (onTransformChange s) n =
      List.replicate (min n NumUploadAttempts) true ++
        List.replicate (n - NumUploadAttempts) false ∧
    (onTransformChange s).pendingUploadAttempts_ = NumUploadAttempts ∧
    (∀ s' : ReplicatedNetworkTransformState,
      ((prepareUnreliableDelta s').1 = true ↔ s'.pendingUploadAttempts_ > 0) ∧
      (s'.pendingUploadAttempts_ > 0 →
        (prepareUnreliableDelta s').2.pendingUploadAttempts_ =
          s'.pendingUploadAttempts_ - 1)) := by
  refine ⟨?_, rfl, ?_⟩
  · rw [prepareUnreliableDeltaSeq_eval]
    rfl
  · intro s'
    constructor
    · rw [prepareUnreliableDelta]
      by_cases hp : s'.pendingUploadAttempts_ > 0
      · simp [hp]
      · simp [hp]
    · intro hp
      rw [prepareUnreliableDelta, if_pos hp]

/-- Witness for C4: from a fresh transform, one change followed by ten
prepare calls yields exactly eight true answers then false; the change set
the counter to 8, and a prepare at counter 3 decrements it to 2. -/
theorem C4_witness :
    prepareUnreliableDeltaSeq (onTransformChange ReplicatedNetworkTransformInit)
        10 =
      [true, true, true, true, true, true, true, true, false, false] ∧
    (onTransformChange ReplicatedNetworkTransformInit).pendingUploadAttempts_ =
      8 ∧
    (prepareUnreliableDelta
      (⟨false, 3⟩ : ReplicatedNetworkTransformState)).2.pendingUploadAttempts_ =
      2 := by
  have h := C4_prepareUnreliableDelta_eight_attempts
    ReplicatedNetworkTransformInit 10
  exact ⟨h.1.trans (by decide), h.2.1,
    (h.2.2 (⟨false, 3⟩ : ReplicatedNetworkTransformState)).2 (by decide)⟩

/-- C5: `StaticNetworkObject::PrepareReliableDelta` returns false on every
call while the parent id matches `latestSentParentObject_`, and returns
true exactly once after a parent change (the immediately following call
with the same parent returns false again). -/
theorem C5_prepareReliableDelta_parent_change
    (s : StaticNetworkObjectState) (p : NetworkId) :
    (p = s.latestSentParentObject_ → prepareReliableDelta s p = (false, s)) ∧
    (p ≠ s.latestSentParentObject_ →
      (prepareReliableDelta s p).1 = true ∧
      prepareReliableDelta (prepareReliableDelta s p).2 p =
        (false, (prepareReliableDelta s p).2)) := by
  constructor
  · intro heq
    rw [prepareReliableDelta, if_pos heq]
  · intro hne
    rw [prepareReliableDelta, if_neg hne]
    refine ⟨rfl, ?_⟩
    rw [prepareReliableDelta, if_pos rfl]

/-- Witness for C5 on a fresh `StaticNetworkObject`: the first prepare with
parent 3 (≠ `InvalidNetworkId`) answers true, the immediately following
prepare with the unchanged parent answers false, and preparing with the
cached parent id answers false. -/
theorem C5_witness :
    prepareReliableDelta (StaticNetworkObjectInit 5) InvalidNetworkId =
      (false, StaticNetworkObjectInit 5) ∧
    (prepareReliableDelta (StaticNetworkObjectInit 5) 3).1 = true ∧
    (prepareReliableDelta
      (prepareReliableDelta (StaticNetworkObjectInit 5) 3).2 3).1 = false := by
  have h1 := C5_prepareReliableDelta_parent_change (StaticNetworkObjectInit 5)
    InvalidNetworkId
  have h2 := C5_prepareReliableDelta_parent_change (StaticNetworkObjectInit 5) 3
  refine ⟨h1.1 rfl, (h2.2 (by decide)).1, ?_⟩
  rw [(h2.2 (by decide)).2]

/-- C6: `WriteSnapshot` on the source object followed by
`InitializeFromSnapshot` on a freshly created object reproduces identical
observable state: same prefab reference, same parent `NetworkId`, same
behavior set. -/
theorem C6_snapshot_roundtrip (resolvePrefab : Nat → List NetworkCallbackFlags)
    (pid prefab : Nat)
    (h : (resolvePrefab prefab).length ≤ MaxNumBehaviors) :
    initializeFromSnapshot resolvePrefab
        (writeSnapshot
          { parentId := pid, clientPrefab := prefab,
            behaviors := assignBits 0 (resolvePrefab prefab) }) =
      some { parentId := pid, clientPrefab := prefab,
             behaviors := assignBits 0 (resolvePrefab prefab) } := by
  show initializeFromSnapshot resolvePrefab [pid, prefab] = _
  rw [initializeFromSnapshot]
  rw [initializeBehaviors, if_neg (Nat.not_lt.mpr h)]

/-- Witness for C6: snapshot of an object with parent 7, prefab 3 and one
prefab-prescribed behavior reconstructs the identical observable state. -/
theorem C6_witness :
    initializeFromSnapshot (fun _ => [ReplicatedNetworkTransformCallbackMask])
        [7, 3] =
      some ⟨7, 3, [⟨0, ReplicatedNetworkTransformCallbackMask, [], false⟩]⟩ := by
  have h := C6_snapshot_roundtrip
    (fun _ => [ReplicatedNetworkTransformCallbackMask]) 7 3 (by decide)
  exact h

/-- C7: after `Set` is called on a strictly ascending sequence of distinct
frames, only the most recent `capacity` frames are retained: `GetRaw(f)`
returns exactly the value set for `f` when `f` is among the retained
frames, and absent when `f` was evicted or never set. -/
theorem C7_set_eviction_getRaw {α : Type} (c : Nat) (ps : List (Nat × α))
    (hs : ps.Pairwise (fun p q => p.1 < q.1)) :
    (NetworkValue.setMany (NetworkValue.emptyTrace α c) ps).samples =
      takeLast c ps ∧
    (∀ f v, (f, v) ∈ takeLast c ps →
      (NetworkValue.setMany (NetworkValue.emptyTrace α c) ps).getRaw f =
        some v) ∧
    (∀ f, f ∉ (takeLast c ps).map Prod.fst →
      (NetworkValue.setMany (NetworkValue.emptyTrace α c) ps).getRaw f =
        none) := by
  have h0 : NetworkValue.emptyTrace α c =
      (⟨c, takeLast c ([] : List (Nat × α))⟩ : NetworkValue α) := by
    rw [takeLast_nil]
    rfl
  have h1 : (NetworkValue.setMany (NetworkValue.emptyTrace α c) ps).samples =
      takeLast c ps := by
    rw [h0]
    have := setMany_samples c ps [] (by simpa using hs)
    simpa using this
  have hsorted : (takeLast c ps).Pairwise (fun p q : Nat × α => p.1 < q.1) :=
    hs.sublist (takeLast_sublist c ps)
  refine ⟨h1, ?_, ?_⟩
  · intro f v hmem
    rw [NetworkValue.getRaw, h1,
      find?_frame_of_mem (takeLast c ps) f v hsorted hmem]
    rfl
  · intro f hnot
    rw [NetworkValue.getRaw, h1, List.find?_eq_none.mpr]
    · rfl
    · intro q hq
      simp only [beq_iff_eq]
      intro hqf
      exact hnot (hqf ▸ List.mem_map_of_mem Prod.fst hq)

/-- Witness for C7: capacity 2, frames 1, 2, 3 written in order; frame 1 is
evicted, frames 2 and 3 are retained with their exact values. -/
theorem C7_witness :
    (NetworkValue.setMany (NetworkValue.emptyTrace Nat 2)
      [(1, 10), (2, 20), (3, 30)]).samples = [(2, 20), (3, 30)] ∧
    (NetworkValue.setMany (NetworkValue.emptyTrace Nat 2)
      [(1, 10), (2, 20), (3, 30)]).getRaw 2 = some 20 ∧
    (NetworkValue.setMany (NetworkValue.emptyTrace Nat 2)
      [(1, 10), (2, 20), (3, 30)]).getRaw 1 = none := by
  have h := C7_set_eviction_getRaw 2 [(1, 10), (2, 20), (3, 30)] (by decide)
  exact ⟨h.1.trans (by decide), h.2.1 2 20 (by decide), h.2.2 1 (by decide)⟩

/-- C8 counterexample: it is not the case that every `Read*` operation
returns a distinguishable failure result to its caller — all four read-side
methods are declared `void` in the header, so no result whatsoever reaches
the caller through the return value. -/
theorem C8_counterexample :
    ¬ (∀ m : ReadMethod, returnsFailureResult m = true) := fun h =>
  absurd (h ReadMethod.readReliableDelta) (by decide)

/-- C8 (amended): the declared `Read*` methods return `void`, so failures
are not handed to the caller as return values; in the modelled read path,
every malformed input — truncated or malformed VLE, or a set bit whose
behavior is absent — produces a distinguishable failure value rather than
being silently ignored. -/
theorem C8_read_failures_distinguishable :
    (∀ m : ReadMethod, readMethodReturnType m = MethodReturnType.voidReturn) ∧
    (∀ behaviors wire, decodeVLE wire = none →
      readDelta behaviors wire = Except.error ReadError.truncated) ∧
    (∀ behaviors wire mask rest, decodeVLE wire = some (mask, rest) →
      maskCovered behaviors mask = false →
      readDelta behaviors wire = Except.error ReadError.unknownBit) ∧
    (∀ resolvePrefab, initializeFromSnapshot resolvePrefab [] = none) := by
  refine ⟨?_, ?_, ?_, ?_⟩
  · intro m
    cases m <;> rfl
  · intro behaviors wire hdec
    simp only [readDelta, hdec]
  · intro behaviors wire mask rest hdec hcov
    simp only [readDelta, hdec, hcov]
    rfl
  · intro resolvePrefab
    rfl

/-- Witness for C8: the truncated wire `[128]` (a VLE continuation byte with
nothing following) and the wire `[1]` (bit 0 set with no behavior attached)
both fail distinguishably. -/
theorem C8_witness :
    readDelta [] [128] = Except.error ReadError.truncated ∧
    readDelta [] [1] = Except.error ReadError.unknownBit ∧
    initializeFromSnapshot (fun _ => []) [] = none := by
  have h := C8_read_failures_distinguishable
  exact ⟨h.2.1 [] [128] (by decide), h.2.2.1 [] [1] 1 [] (by decide) (by decide),
    h.2.2.2 (fun _ => [])⟩

/-- C9: `ReplicatedNetworkTransform::CallbackMask` is exactly
`{UpdateTransformOnServer, UnreliableDelta, InterpolateState}`, and a
behavior carrying that mask never gets its bit set in its owner's
reliable-update mask or unreliable-feedback mask, whatever data it has. -/
theorem C9_transform_callback_mask :
    ReplicatedNetworkTransformCallbackMask =
      { updateTransformOnServer := true, reliableDelta := false,
        unreliableDelta := true, unreliableFeedback := false,
        interpolateState := true } ∧
    (∀ (behaviors : List ConnectedNetworkBehavior)
        (b : ConnectedNetworkBehavior),
      b ∈ behaviors →
      b.callbackMask_ = ReplicatedNetworkTransformCallbackMask →
      ((behaviors.map ConnectedNetworkBehavior.bit_).Nodup →
        (collectMask (fun m => m.reliableDelta) behaviors).testBit b.bit_ =
          false ∧
        (collectMask (fun m => m.unreliableFeedback) behaviors).testBit
          b.bit_ = false)) := by
  refine ⟨rfl, ?_⟩
  intro behaviors b hb hmask hnodup
  have hinj := List.inj_on_of_nodup_map hnodup
  have key : ∀ (cap : NetworkCallbackFlags → Bool),
      cap ReplicatedNetworkTransformCallbackMask = false →
      (collectMask cap behaviors).testBit b.bit_ = false := by
    intro cap hcap
    rw [testBit_collectMask]
    rw [List.any_eq_false]
    intro b' hb'
    by_cases hbit : b'.bit_ = b.bit_
    · have hbb : b' = b := hinj hb' hb hbit
      rw [hbb, hmask, hcap]
      simp
    · simp [hbit]
  exact ⟨key (fun m => m.reliableDelta) (by rfl),
    key (fun m => m.unreliableFeedback) (by rfl)⟩

/-- Witness for C9: alongside a second behavior that does participate in
reliable deltas and feedback, the transform-masked behavior at bit 0 stays
out of both masks. -/
theorem C9_witness :
    (collectMask (fun m => m.reliableDelta)
      [⟨0, ReplicatedNetworkTransformCallbackMask, [], true⟩,
       ⟨1, ⟨true, true, true, true, true⟩, [], true⟩]).testBit 0 = false ∧
    (collectMask (fun m => m.unreliableFeedback)
      [⟨0, ReplicatedNetworkTransformCallbackMask, [], true⟩,
       ⟨1, ⟨true, true, true, true, true⟩, [], true⟩]).testBit 0 = false := by
  have h := (C9_transform_callback_mask.2
    [⟨0, ReplicatedNetworkTransformCallbackMask, [], true⟩,
     ⟨1, ⟨true, true, true, true, true⟩, [], true⟩]
    ⟨0, ReplicatedNetworkTransformCallbackMask, [], true⟩
    (by decide) rfl) (by decide)
  exact h

/-- C10: a freshly constructed `ReplicatedNetworkTransform` has
`pendingUploadAttempts_ = 0`, so the first `PrepareUnreliableDelta` call
answers false — no unreliable delta is produced before any transform
change. -/
theorem C10_fresh_transform_no_delta :
    ReplicatedNetworkTransformInit.pendingUploadAttempts_ = 0 ∧
    (prepareUnreliableDelta ReplicatedNetworkTransformInit).1 = false :=
  ⟨rfl, rfl⟩

end Urho3D
